import Mathlib

/-!
# tinc: AIX tap device layer and the graph recompute contract

A shallow embedding of `src/aix/device.c` (the `os_devops` operations) and of
the contract declared in `src/graph.h` (`graph_changed`, `graph()`).

C strings are lists of characters without the terminating NUL.  C integers are
`Int`; the two `uint64_t` byte counters wrap modulo `2^64`.  Results of system
calls (`open`, `fdevname`/`devname`, `read`, `write`) are explicit arguments.
-/

namespace Tinc

/-! ## libc string helpers used by `device.c` -/

/-- A C string: the characters before the terminating NUL. -/
abbrev CString := List Char

/-- Well-formed C string contents: no embedded NUL character. -/
def IsCString (s : CString) : Prop := ∀ c ∈ s, c.toNat ≠ 0

/-- The libc `tolower` in the C locale, on character codes. -/
def tolower (c : Char) : Nat :=
  if 65 ≤ c.toNat ∧ c.toNat ≤ 90 then c.toNat + 32 else c.toNat

/-- The libc `strcasecmp`: difference of the first pair of characters that
differ after `tolower`; the end of a string reads as the NUL byte. -/
def strcasecmp : CString → CString → Int
  | [], [] => 0
  | [], b :: _ => 0 - (tolower b : Int)
  | a :: _, [] => (tolower a : Int) - 0
  | a :: as, b :: bs =>
    if tolower a = tolower b then strcasecmp as bs
    else (tolower a : Int) - (tolower b : Int)

/-- The libc `strcmp`: difference of the first pair of characters that differ. -/
def strcmp : CString → CString → Int
  | [], [] => 0
  | [], b :: _ => 0 - (b.toNat : Int)
  | a :: _, [] => (a.toNat : Int) - 0
  | a :: as, b :: bs =>
    if a = b then strcmp as bs else (a.toNat : Int) - (b.toNat : Int)

/-- Does `needle` start the string `hay`? -/
def startsWith : CString → CString → Bool
  | _, [] => true
  | [], _ :: _ => false
  | h :: hs, n :: ns => h == n && startsWith hs ns

/-- The libc `strstr`: the suffix of `hay` at the first occurrence of
`needle`, or `none` (NULL) when there is none. -/
def strstr : CString → CString → Option CString
  | [], needle => if startsWith [] needle then some [] else none
  | h :: hs, needle =>
    if startsWith (h :: hs) needle then some (h :: hs) else strstr hs needle

/-- The libc `strrchr`: the suffix of `s` starting at the last occurrence of
`c`, or `none` (NULL) when `c` does not occur. -/
def strrchr : CString → Char → Option CString
  | [], _ => none
  | x :: xs, c =>
    match strrchr xs c with
    | some r => some r
    | none => if x = c then some (x :: xs) else none

/-! ## Configuration and global state of `device.c` -/

/-- Routing modes of `route.h`. -/
inductive routing_mode_t where
  | RMODE_HUB
  | RMODE_SWITCH
  | RMODE_ROUTER
  deriving DecidableEq, Repr

/-- The configuration entries `setup_device` looks up in `config_tree`, and
the global `routing_mode`.  `none` is an entry that is not configured. -/
structure Config where
  Device : Option CString
  DeviceType : Option CString
  Interface : Option CString
  routing_mode : routing_mode_t
  deriving DecidableEq, Repr

/-- The only enumerator of `device_type_t`. -/
def DEVICE_TYPE_TAP : Int := 0

/-- The macro `DEFAULT_TAP_DEVICE`. -/
def DEFAULT_TAP_DEVICE : CString := "/dev/tap0".toList

/-- A `vpn_packet_t`: the `len` field and the `data` bytes. -/
structure vpn_packet_t where
  len : Int
  data : List Nat
  deriving DecidableEq, Repr

/-- The globals that the device operations read and write, together with the
dirty flag `graph_changed` declared in `graph.h`.  `device` and `iface` are
`none` for a NULL pointer.  `device_type` is the variable of type
`device_type_t` that the operations assign and switch on; as a C enum it is an
integer, `DEVICE_TYPE_TAP` being its only named value. -/
structure DevState where
  device_fd : Int
  device : Option CString
  iface : Option CString
  device_type : Int
  device_total_in : Int
  device_total_out : Int
  graph_changed : Bool
  deriving DecidableEq, Repr

/-- The globals at program start, for a given value of the dirty flag. -/
def DevState.fresh (dirty : Bool) : DevState :=
  { device_fd := -1, device := none, iface := none,
    device_type := DEVICE_TYPE_TAP,
    device_total_in := 0, device_total_out := 0, graph_changed := dirty }

/-- What the operating system answers during `setup_device`: the result of
`open` and the name reported by `fdevname`/`devname` (`none` for NULL or when
neither function is available). -/
structure SetupOS where
  open_result : Int
  realname : Option CString
  deriving DecidableEq, Repr

/-- The expression `strrchr(realname, '/') ? strrchr(realname, '/') + 1 : realname`. -/
def basename (realname : CString) : CString :=
  match strrchr realname '/' with
  | some r => r.tail
  | none => realname

/-- Modulus of the `uint64_t` byte counters. -/
def U64 : Int := 2 ^ 64

/-- The function `setup_device` of `device.c`. -/
def setup_device (cfg : Config) (os : SetupOS) (s : DevState) : Bool × DevState :=
  -- Find out which device file to open
  let r1 : Option DevState :=
    match cfg.Device with
    | some d => some { s with device := some d }
    | none =>
      if cfg.routing_mode = routing_mode_t.RMODE_ROUTER then none
      else some { s with device := some DEFAULT_TAP_DEVICE }
  match r1 with
  | none => (false, s)
  | some s1 =>
    let device : CString := s1.device.getD []
    -- Find out if it's supposed to be a tun or a tap device
    let r2 : Option DevState :=
      match cfg.DeviceType with
      | some type =>
        if strcasecmp type "tap".toList = 0 then
          some { s1 with device_type := DEVICE_TYPE_TAP }
        else none
      | none =>
        if (strstr device "tap".toList).isSome
            ∨ cfg.routing_mode ≠ routing_mode_t.RMODE_ROUTER then
          some { s1 with device_type := DEVICE_TYPE_TAP }
        else some s1
    match r2 with
    | none => (false, s1)
    | some s2 =>
      if cfg.routing_mode = routing_mode_t.RMODE_SWITCH
          ∧ s2.device_type ≠ DEVICE_TYPE_TAP then (false, s2)
      else
        let s3 := { s2 with device_fd := os.open_result }
        if s3.device_fd < 0 then (false, s3)
        else
          -- Guess what the corresponding interface is called
          let realname : CString :=
            match os.realname with
            | some n => n
            | none => device
          match cfg.Interface with
          | none => (true, { s3 with iface := some (basename realname) })
          | some i =>
            let s4 := { s3 with iface := some i }
            if strcmp i (basename realname) ≠ 0 then
              -- logs the warning "Interface does not match Device"
              (true, s4)
            else (true, s4)

/-- The function `close_device` of `device.c`: closes the descriptor and frees the two
strings; the variables themselves keep their values. -/
def close_device (s : DevState) : DevState := s

/-- The function `read_packet` of `device.c`; `lenin` is the result of
`read(device_fd, packet->data, MTU)` and `bytes` the data it stored at the
start of the buffer.  The type `length_t` of `len` (from `net.h`) is taken to
hold every value up to `MTU`. -/
def read_packet (lenin : Int) (bytes : List Nat)
    (s : DevState) (packet : vpn_packet_t) : Bool × DevState × vpn_packet_t :=
  if s.device_type = DEVICE_TYPE_TAP then
    if lenin ≤ 0 then (false, s, packet)
    else
      let packet1 : vpn_packet_t :=
        { len := lenin, data := bytes ++ packet.data.drop bytes.length }
      (true, { s with device_total_in := (s.device_total_in + packet1.len) % U64 }, packet1)
  else (false, s, packet)

/-- The function `write_packet` of `device.c`; `written` is the result of
`write(device_fd, packet->data, packet->len)`. -/
def write_packet (written : Int) (s : DevState) (packet : vpn_packet_t) :
    Bool × DevState × vpn_packet_t :=
  if s.device_type = DEVICE_TYPE_TAP then
    if written < 0 then (false, s, packet)
    else (true, { s with device_total_out := (s.device_total_out + packet.len) % U64 }, packet)
  else (false, s, packet)

/-- The function `dump_device_stats` of `device.c`: logs the two counters. -/
def dump_device_stats (s : DevState) : DevState := s

/-- Equality of two strings ignoring case, in the words of the specification:
the strings agree character by character after `tolower`. -/
def eqIgnoreCase (x y : CString) : Prop :=
  x.map tolower = y.map tolower

/-- One call of `read_packet` or `write_packet` with the packet it is given
and what the operating system answers. -/
inductive DevCall where
  | read (lenin : Int) (bytes : List Nat) (packet : vpn_packet_t)
  | write (written : Int) (packet : vpn_packet_t)
  deriving DecidableEq, Repr

/-- The outcome of one call: which operation it was, the value returned and
`packet->len` when the call returns. -/
structure CallResult where
  isRead : Bool
  ok : Bool
  len : Int
  deriving DecidableEq, Repr

/-- Perform one call on the device state. -/
def runCall (s : DevState) : DevCall → DevState × CallResult
  | DevCall.read lenin bytes packet =>
    let r := read_packet lenin bytes s packet
    (r.2.1, { isRead := true, ok := r.1, len := r.2.2.len })
  | DevCall.write written packet =>
    let r := write_packet written s packet
    (r.2.1, { isRead := false, ok := r.1, len := r.2.2.len })

/-- Perform a finite sequence of calls, first to last, collecting the outcomes. -/
def runCalls (s : DevState) : List DevCall → DevState × List CallResult
  | [] => (s, [])
  | c :: cs =>
    let r := runCall s c
    let rest := runCalls r.1 cs
    (rest.1, r.2 :: rest.2)

/-- Sum of `packet->len` over the calls of one kind that returned true. -/
def sumLen (isRead : Bool) : List CallResult → Int
  | [] => 0
  | r :: rs => (if r.isRead = isRead ∧ r.ok = true then r.len else 0) + sumLen isRead rs

/-! ## The graph subsystem declared in `graph.h`

`graph.h` declares the dirty flag `graph_changed` and the entry point
`graph()`; their implementation is not part of the sources, so the registries
and the recomputation are modelled from the specification (sections 3 and 4).
-/

/-- Modelled from the spec: the opaque node identifier (section 3, `id`). -/
abbrev NodeId := Nat

/-- Modelled from the spec: the `status` of a Node (section 3). -/
inductive Status where
  | Known
  | Reachable
  | Unreachable
  deriving DecidableEq, Repr

/-- Modelled from the spec: the `origin` of an Edge (section 3). -/
inductive Origin where
  | Local
  | Gossiped
  deriving DecidableEq, Repr

/-- Modelled from the spec: an Edge record (section 3), the unordered pair
`(a, b)` with its weight and origin. -/
structure Edge where
  a : NodeId
  b : NodeId
  weight : Nat
  origin : Origin
  deriving DecidableEq, Repr

/-- Modelled from the spec: a Node record (section 3).  `none` stands for an
undefined `distance`, `via` or `mst_edge`. -/
structure Node where
  id : NodeId
  status : Status
  distance : Option Nat
  via : Option NodeId
  mst_edge : Option (NodeId × NodeId)
  subnets : List Nat
  deriving DecidableEq, Repr

/-- Modelled from the spec: the Graph aggregate (section 3), the state behind
the two declarations of `graph.h`, whose definitions are not in the sources:
the identifier of self, the Node Registry, the Edge Registry and the dirty
flag, which `graph.h` calls `graph_changed`. -/
structure Graph where
  self : NodeId
  nodes : List Node
  edges : List Edge
  graph_changed : Bool
  deriving DecidableEq, Repr

/-- Modelled from the spec: the Graph at daemon start, "initialized empty with
a single self-node inserted as Reachable/root" (section 3, Lifecycle); the
initial value of the dirty flag is left open. -/
def Graph.init (self : NodeId) (dirty : Bool) : Graph :=
  { self := self,
    nodes := [{ id := self, status := Status.Reachable, distance := some 0,
                via := some self, mst_edge := none, subnets := [] }],
    edges := [],
    graph_changed := dirty }

/-- Modelled from the spec: does the Edge record `e` stand for the unordered
pair `(a, b)`? -/
def samePair (e : Edge) (a b : NodeId) : Bool :=
  (e.a == a && e.b == b) || (e.a == b && e.b == a)

/-- Modelled from the spec: lookup in the Node Registry by id. -/
def findNode (ns : List Node) (id : NodeId) : Option Node :=
  ns.find? (fun n => n.id == id)

/-- Modelled from the spec: "inserts the endpoint Node record as Known (status
unchanged if already present)" (section 4.1, `add_edge`). -/
def insertKnown (ns : List Node) (id : NodeId) : List Node :=
  match findNode ns id with
  | some _ => ns
  | none =>
    ns ++ [{ id := id, status := Status.Known, distance := none, via := none,
             mst_edge := none, subnets := [] }]

/-- Modelled from the spec: `add_edge(a, b, weight, origin)` of the Topology
Replicator (section 4.1), not in the sources: a self-referential announcement
is rejected and leaves the state as it was; an
existing record for the pair is updated, otherwise one is inserted; absent
endpoint nodes are inserted as Known; the dirty flag is set. -/
def add_edge (g : Graph) (a b : NodeId) (weight : Nat) (origin : Origin) : Graph :=
  if a = b then g
  else
    { g with
      nodes := insertKnown (insertKnown g.nodes a) b,
      edges :=
        if g.edges.any (fun e => samePair e a b) then
          g.edges.map (fun e =>
            if samePair e a b then { e with weight := weight, origin := origin } else e)
        else g.edges ++ [{ a := a, b := b, weight := weight, origin := origin }],
      graph_changed := true }

/-- Modelled from the spec: `remove_edge(a, b)` of the Topology Replicator
(section 4.1), not in the sources: deletes the record of the pair if present and sets the dirty
flag. -/
def remove_edge (g : Graph) (a b : NodeId) : Graph :=
  { g with
    edges := g.edges.filter (fun e => !samePair e a b),
    graph_changed := true }

/-- Modelled from the spec: one mutation of the Edge Registry. -/
inductive Op where
  | add (a b : NodeId) (weight : Nat) (origin : Origin)
  | remove (a b : NodeId)
  deriving DecidableEq, Repr

/-- Modelled from the spec: apply one `add_edge`/`remove_edge` operation. -/
def applyOp (g : Graph) : Op → Graph
  | Op.add a b w o => add_edge g a b w o
  | Op.remove a b => remove_edge g a b

/-- Modelled from the spec: apply a sequence of operations, first to last. -/
def applyOps (g : Graph) (ops : List Op) : Graph :=
  ops.foldl applyOp g

/-- Modelled from the spec: is the node present and marked Reachable? -/
def isReachable (ns : List Node) (id : NodeId) : Bool :=
  match findNode ns id with
  | some n => n.status == Status.Reachable
  | none => false

/-- Modelled from the spec: is the node present and not (yet) Reachable? -/
def isPending (ns : List Node) (id : NodeId) : Bool :=
  match findNode ns id with
  | some n => n.status != Status.Reachable
  | none => false

/-- Modelled from the spec: a frontier edge touches "a Reachable node and a
non-Reachable node" (section 4.2, step 1). -/
def isFrontier (ns : List Node) (e : Edge) : Bool :=
  (isReachable ns e.a && isPending ns e.b) || (isReachable ns e.b && isPending ns e.a)

/-- Modelled from the spec: the selection key "(weight, tie-break by lower
node id)": the weight, then the lower endpoint id, then the higher one. -/
def edgeKey (e : Edge) : Nat × Nat × Nat :=
  (e.weight, min e.a e.b, max e.a e.b)

/-- Modelled from the spec: strict lexicographic order on selection keys. -/
def keyLt (k m : Nat × Nat × Nat) : Bool :=
  k.1 < m.1 || (k.1 == m.1 && (k.2.1 < m.2.1 || (k.2.1 == m.2.1 && k.2.2 < m.2.2)))

/-- Modelled from the spec: the edge of minimum key in a list (the earliest
one among equal keys), `none` for the empty list. -/
def pickMin : List Edge → Option Edge
  | [] => none
  | e :: es =>
    match pickMin es with
    | none => some e
    | some m => if keyLt (edgeKey m) (edgeKey e) then some m else some e

/-- Modelled from the spec: a "directly-tunneled" node has a Local-origin edge
from self (section 4.2, step 1). -/
def directlyTunneled (g : Graph) (p : NodeId) : Bool :=
  g.edges.any (fun e => samePair e g.self p && e.origin == Origin.Local)

/-- Modelled from the spec: mark node `c` Reachable with the given distance,
`via` and tree edge. -/
def markReachable (ns : List Node) (c : NodeId) (dist : Option Nat)
    (via : Option NodeId) (e : Edge) : List Node :=
  ns.map (fun n =>
    if n.id = c then
      { n with status := Status.Reachable, distance := dist, via := via,
               mst_edge := some (e.a, e.b) }
    else n)

/-- Modelled from the spec: one round of the Prim-style growth (section 4.2,
step 1): select the frontier edge of minimum key, mark its non-Reachable
endpoint Reachable with `distance = parent.distance + edge.weight`, `via` the
parent when the parent is directly tunneled and the parent's own `via`
otherwise, and `mst_edge` the selected edge.  `none` when the frontier is
empty. -/
def growStep (g : Graph) : Option Graph :=
  match pickMin (g.edges.filter (isFrontier g.nodes)) with
  | none => none
  | some e =>
    let p : NodeId := if isReachable g.nodes e.a && isPending g.nodes e.b then e.a else e.b
    let c : NodeId := if isReachable g.nodes e.a && isPending g.nodes e.b then e.b else e.a
    let parent : Option Node := findNode g.nodes p
    let dist : Option Nat := (parent.bind Node.distance).map (fun d => d + e.weight)
    let via : Option NodeId :=
      if directlyTunneled g p then some p else parent.bind Node.via
    some { g with nodes := markReachable g.nodes c dist via e }

/-- Modelled from the spec: repeat the growth "until the frontier is empty",
at most `fuel` rounds. -/
def grow : Nat → Graph → Graph
  | 0, g => g
  | fuel + 1, g =>
    match growStep g with
    | none => g
    | some g1 => grow fuel g1

/-- Modelled from the spec: the start of a recomputation pass, "only the root
(self) marked Reachable, distance = 0" with `via == self` and no `mst_edge`;
every other node is back to Known with nothing computed. -/
def resetNode (self : NodeId) (n : Node) : Node :=
  if n.id = self then
    { n with status := Status.Reachable, distance := some 0, via := some self,
             mst_edge := none }
  else
    { n with status := Status.Known, distance := none, via := none, mst_edge := none }

/-- Modelled from the spec: "any Node still Known after the frontier empties
is marked Unreachable; its distance, via, mst_edge become undefined"
(section 4.2, step 2). -/
def finalizeNode (n : Node) : Node :=
  if n.status = Status.Known then
    { n with status := Status.Unreachable, distance := none, via := none,
             mst_edge := none }
  else n

/-- Modelled from the spec: the body of the recompute entry point `graph()`,
which `graph.h` declares and the sources do not define (section 4.2,
`recompute()`): clear the dirty flag at the start of the pass, grow the
reachable set from the root, then mark what is left Unreachable.  One round
per registered node is enough fuel (see `growStep_grow_eq_none`). -/
def graph (g : Graph) : Graph :=
  let g0 : Graph :=
    { g with nodes := g.nodes.map (resetNode g.self), graph_changed := false }
  let g1 : Graph := grow g0.nodes.length g0
  { g1 with nodes := g1.nodes.map finalizeNode }

/-- Number of registered nodes that are not marked Reachable: the measure that
bounds the number of growth rounds. -/
def pendingCount (ns : List Node) : Nat :=
  ns.countP (fun n => n.status != Status.Reachable)

/-- Well-formed registries: self is registered and so are both endpoints of
every Edge record. -/
def WellFormed (g : Graph) : Prop :=
  g.self ∈ g.nodes.map Node.id
    ∧ ∀ e ∈ g.edges, e.a ∈ g.nodes.map Node.id ∧ e.b ∈ g.nodes.map Node.id

/-- Modelled from the spec: the status of a node after lookup by id, `none`
for an id that is not in the Node Registry. -/
def statusOf (g : Graph) (id : NodeId) : Option Status :=
  (findNode g.nodes id).map Node.status

/-- Modelled from the spec: two nodes are joined by an Edge record, in either
direction. -/
def Adjacent (es : List Edge) (x y : NodeId) : Prop :=
  ∃ e ∈ es, (e.a = x ∧ e.b = y) ∨ (e.a = y ∧ e.b = x)

/-- Modelled from the spec: `y` lies in the connected component of `x` in the
undirected graph formed by the Edge records. -/
def Connected (es : List Edge) (x y : NodeId) : Prop :=
  Relation.ReflTransGen (Adjacent es) x y

/-! ## Device layer: auxiliary lemmas -/

theorem tolower_ne_zero (c : Char) (h : c.toNat ≠ 0) : tolower c ≠ 0 := by
  unfold tolower
  split <;> omega

theorem strcasecmp_eq_zero (x y : CString) (hx : IsCString x) (hy : IsCString y)
    (h : strcasecmp x y = 0) : eqIgnoreCase x y := by
  induction x generalizing y with
  | nil =>
    cases y with
    | nil => rfl
    | cons b bs =>
      have hb := tolower_ne_zero b (hy b (by simp))
      simp [strcasecmp] at h
      omega
  | cons a as ih =>
    cases y with
    | nil =>
      have ha := tolower_ne_zero a (hx a (by simp))
      simp [strcasecmp] at h
      omega
    | cons b bs =>
      unfold strcasecmp at h
      split at h
      · rename_i hab
        have := ih bs (fun c hc => hx c (by simp [hc])) (fun c hc => hy c (by simp [hc])) h
        unfold eqIgnoreCase at this ⊢
        simp [hab, this]
      · rename_i hab
        exfalso
        apply hab
        omega

theorem isCString_tap : IsCString "tap".toList := by
  unfold IsCString
  decide

/-- The suffix returned by `strrchr` starts with the character searched for,
that character does not occur after it, and the suffix ends the string. -/
theorem strrchr_some (s : CString) (c : Char) (r : CString) (h : strrchr s c = some r) :
    ∃ pre rest, s = pre ++ c :: rest ∧ r = c :: rest ∧ c ∉ rest := by
  induction s generalizing r with
  | nil => simp [strrchr] at h
  | cons x xs ih =>
    unfold strrchr at h
    cases hxs : strrchr xs c with
    | some r1 =>
      rw [hxs] at h
      simp at h
      subst h
      obtain ⟨pre, rest, h1, h2, h3⟩ := ih r1 hxs
      exact ⟨x :: pre, rest, by simp [h1], h2, h3⟩
    | none =>
      rw [hxs] at h
      simp at h
      obtain ⟨hxc, hr⟩ := h
      subst hxc
      subst hr
      refine ⟨[], xs, by simp, rfl, ?_⟩
      intro hmem
      clear ih
      induction xs with
      | nil => simp at hmem
      | cons y ys ih2 =>
        unfold strrchr at hxs
        cases hys : strrchr ys x with
        | some r2 => rw [hys] at hxs; simp at hxs
        | none =>
          rw [hys] at hxs
          simp at hxs
          simp at hmem
          rcases hmem with h | h
          · exact hxs h.symm
          · exact ih2 hys h

theorem strrchr_none (s : CString) (c : Char) (h : strrchr s c = none) : c ∉ s := by
  induction s with
  | nil => simp
  | cons x xs ih =>
    unfold strrchr at h
    cases hxs : strrchr xs c with
    | some r1 => rw [hxs] at h; simp at h
    | none =>
      rw [hxs] at h
      simp at h
      simp
      exact ⟨fun hc => h hc.symm, ih hxs⟩

/-- What `basename` computes, in the words of the specification: the part
after the last `'/'`, or the whole name when it contains no `'/'`. -/
theorem basename_spec (name : CString) :
    ('/' ∈ name → ∃ pre, name = pre ++ '/' :: basename name)
      ∧ ('/' ∉ name → basename name = name)
      ∧ '/' ∉ basename name
      ∧ basename name <:+ name := by
  unfold basename
  cases h : strrchr name '/' with
  | none =>
    have hn := strrchr_none name '/' h
    exact ⟨fun hm => absurd hm hn, fun _ => rfl, hn, List.suffix_refl _⟩
  | some r =>
    obtain ⟨pre, rest, h1, h2, h3⟩ := strrchr_some name '/' r h
    subst h2
    refine ⟨fun _ => ⟨pre, by simpa using h1⟩, fun hn => ?_, by simpa using h3, ?_⟩
    · exact absurd (by simp [h1]) hn
    · exact ⟨pre ++ ['/'], by simp [h1]⟩

/-- The counters after a sequence of calls are the counters before it plus the
sums over the successful calls, modulo `2^64`. -/
theorem runCalls_totals (calls : List DevCall) (s : DevState) :
    (runCalls s calls).1.device_total_in % U64
        = (s.device_total_in + sumLen true (runCalls s calls).2) % U64
      ∧ (runCalls s calls).1.device_total_out % U64
        = (s.device_total_out + sumLen false (runCalls s calls).2) % U64 := by
  induction calls generalizing s with
  | nil => simp [runCalls, sumLen]
  | cons c cs ih =>
    obtain ⟨ih1, ih2⟩ := ih (runCall s c).1
    simp only [runCalls, sumLen]
    rw [ih1, ih2]
    cases c with
    | read lenin bytes packet =>
      simp only [runCall, read_packet]
      split
      · split
        · simp
        · simp only [Bool.true_eq_false, and_false, if_false, and_self, if_true, zero_add]
          constructor
          · rw [Int.emod_add_emod, Int.add_assoc]
          · simp
      · simp
    | write written packet =>
      simp only [runCall, write_packet]
      split
      · split
        · simp
        · simp only [Bool.false_eq_true, false_and, if_false, and_self, if_true, zero_add]
          constructor
          · simp
          · rw [Int.emod_add_emod, Int.add_assoc]
      · simp

/-- The byte counters stay within the range of `uint64_t`. -/
theorem runCalls_range (calls : List DevCall) (s : DevState)
    (hin : 0 ≤ s.device_total_in ∧ s.device_total_in < U64)
    (hout : 0 ≤ s.device_total_out ∧ s.device_total_out < U64) :
    (0 ≤ (runCalls s calls).1.device_total_in ∧ (runCalls s calls).1.device_total_in < U64)
      ∧ (0 ≤ (runCalls s calls).1.device_total_out
          ∧ (runCalls s calls).1.device_total_out < U64) := by
  have hU : (0 : Int) < U64 := by unfold U64; norm_num
  induction calls generalizing s with
  | nil => exact ⟨hin, hout⟩
  | cons c cs ih =>
    simp only [runCalls]
    apply ih
    · cases c with
      | read lenin bytes packet =>
        simp only [runCall, read_packet]
        split
        · split
          · exact hin
          · exact ⟨Int.emod_nonneg _ (ne_of_gt hU), Int.emod_lt_of_pos _ hU⟩
        · exact hin
      | write written packet =>
        simp only [runCall, write_packet]
        split
        · split <;> exact hin
        · exact hin
    · cases c with
      | read lenin bytes packet =>
        simp only [runCall, read_packet]
        split
        · split <;> exact hout
        · exact hout
      | write written packet =>
        simp only [runCall, write_packet]
        split
        · split
          · exact hout
          · exact ⟨Int.emod_nonneg _ (ne_of_gt hU), Int.emod_lt_of_pos _ hU⟩
        · exact hout

/-! ## Device layer: the claims -/

/-- C1: when `DeviceType` is set to a string that is not equal to "tap"
ignoring case, `setup_device` returns false and `device_fd` keeps the value it
had before the call (so -1 on a fresh start), whatever the routing mode and
the `Device` and `Interface` settings are. -/
theorem setup_device_unknown_type (cfg : Config) (os : SetupOS) (s : DevState)
    (type : CString) (hty : cfg.DeviceType = some type) (hcs : IsCString type)
    (hne : ¬ eqIgnoreCase type "tap".toList) :
    (setup_device cfg os s).1 = false
      ∧ (setup_device cfg os s).2.device_fd = s.device_fd
      ∧ (s.device_fd = -1 → (setup_device cfg os s).2.device_fd = -1) := by
  have hz : strcasecmp type ['t', 'a', 'p'] ≠ 0 := by
    intro h
    exact hne (strcasecmp_eq_zero type _ hcs isCString_tap h)
  have key : (setup_device cfg os s).1 = false
      ∧ (setup_device cfg os s).2.device_fd = s.device_fd := by
    cases hD : cfg.Device with
    | none =>
      by_cases hr : cfg.routing_mode = routing_mode_t.RMODE_ROUTER
      · simp [setup_device, hD, hr]
      · simp [setup_device, hD, hr, hty, hz]
    | some d => simp [setup_device, hD, hty, hz]
  exact ⟨key.1, key.2, fun h => by rw [key.2, h]⟩

/-- Witness of C1: `DeviceType = "tun"` in switch mode on a fresh start, with
an `open` that would succeed. -/
theorem setup_device_unknown_type_witness :
    (setup_device
        { Device := none, DeviceType := some "tun".toList, Interface := none,
          routing_mode := routing_mode_t.RMODE_SWITCH }
        { open_result := 3, realname := none } (DevState.fresh false)).1 = false
      ∧ (setup_device
        { Device := none, DeviceType := some "tun".toList, Interface := none,
          routing_mode := routing_mode_t.RMODE_SWITCH }
        { open_result := 3, realname := none } (DevState.fresh false)).2.device_fd = -1 :=
  have h := setup_device_unknown_type
    { Device := none, DeviceType := some "tun".toList, Interface := none,
      routing_mode := routing_mode_t.RMODE_SWITCH }
    { open_result := 3, realname := none } (DevState.fresh false) "tun".toList rfl
    (by unfold IsCString; decide) (by unfold eqIgnoreCase; decide)
  ⟨h.1, h.2.1⟩

/-- C4: for a configuration that passes the `Device`/`DeviceType` checks and
whose device opens, `setup_device` returns true whether or not `Interface` is
configured and whatever its value; replacing the `Interface` setting never
changes the return value; a configured `Interface` is kept in `iface` as given. -/
theorem setup_device_interface_nonfatal (cfg : Config) (os : SetupOS) (s : DevState)
    (hdev : cfg.Device = none → cfg.routing_mode ≠ routing_mode_t.RMODE_ROUTER)
    (htype : ∀ t, cfg.DeviceType = some t → strcasecmp t "tap".toList = 0)
    (hopen : 0 ≤ os.open_result) :
    (∀ i, (setup_device { cfg with Interface := i } os s).1 = true)
      ∧ (∀ i, (setup_device { cfg with Interface := i } os s).1 = (setup_device cfg os s).1)
      ∧ (∀ i, (setup_device { cfg with Interface := some i } os s).2.iface = some i) := by
  have hopen1 : ¬ os.open_result < 0 := not_lt.mpr hopen
  have key : ∀ i, (setup_device { cfg with Interface := i } os s).1 = true
      ∧ (∀ j, i = some j → (setup_device { cfg with Interface := i } os s).2.iface = some j) := by
    intro i
    cases hD : cfg.Device with
    | none =>
      have hr := hdev hD
      cases hT : cfg.DeviceType with
      | none =>
        cases i <;> simp [setup_device, hD, hr, hT, hopen1]
      | some t =>
        have ht : strcasecmp t ['t', 'a', 'p'] = 0 := htype t hT
        cases i <;> simp [setup_device, hD, hr, hT, ht, hopen1]
    | some d =>
      cases hT : cfg.DeviceType with
      | none =>
        by_cases h1 : (strstr d ['t', 'a', 'p']).isSome = true
              ∨ cfg.routing_mode ≠ routing_mode_t.RMODE_ROUTER
        · cases i <;> simp [setup_device, hD, hT, h1, hopen1]
        · have h2 : ¬ cfg.routing_mode = routing_mode_t.RMODE_SWITCH := by
            intro h3
            apply h1
            right
            rw [h3]
            decide
          cases i <;> simp [setup_device, hD, hT, h1, h2, hopen1]
      | some t =>
        have ht : strcasecmp t ['t', 'a', 'p'] = 0 := htype t hT
        cases i <;> simp [setup_device, hD, hT, ht, hopen1]
  refine ⟨fun i => (key i).1, fun i => ?_, fun i => (key (some i)).2 i rfl⟩
  have h1 := (key i).1
  have h2 := (key cfg.Interface).1
  rw [h1]
  exact h2.symm

/-- Witness of C4: the default device in switch mode with `Interface` set to
a name that differs from the derived one. -/
theorem setup_device_interface_nonfatal_witness :
    (setup_device
        { Device := none, DeviceType := none, Interface := some "vpn0".toList,
          routing_mode := routing_mode_t.RMODE_SWITCH }
        { open_result := 3, realname := none } (DevState.fresh false)).1 = true
      ∧ (setup_device
        { Device := none, DeviceType := none, Interface := some "vpn0".toList,
          routing_mode := routing_mode_t.RMODE_SWITCH }
        { open_result := 3, realname := none } (DevState.fresh false)).2.iface
          = some "vpn0".toList :=
  have h := setup_device_interface_nonfatal
    { Device := none, DeviceType := none, Interface := none,
      routing_mode := routing_mode_t.RMODE_SWITCH }
    { open_result := 3, realname := none } (DevState.fresh false)
    (by decide) (by intro t ht; cases ht) (by decide)
  ⟨h.1 (some "vpn0".toList), h.2.2 "vpn0".toList⟩

/-- C5: no device-layer operation touches the graph dirty flag: after
`setup_device`, `close_device`, `read_packet`, `write_packet` and
`dump_device_stats`, whatever they return and whatever the operating system
answers, `graph_changed` has the value it had before the call. -/
theorem device_ops_keep_graph_changed (cfg : Config) (os : SetupOS) (s : DevState)
    (lenin written : Int) (bytes : List Nat) (packet : vpn_packet_t) :
    (setup_device cfg os s).2.graph_changed = s.graph_changed
      ∧ (close_device s).graph_changed = s.graph_changed
      ∧ (read_packet lenin bytes s packet).2.1.graph_changed = s.graph_changed
      ∧ (write_packet written s packet).2.1.graph_changed = s.graph_changed
      ∧ (dump_device_stats s).graph_changed = s.graph_changed := by
  refine ⟨?_, rfl, ?_, ?_, rfl⟩
  · cases hD : cfg.Device with
    | none =>
      by_cases hr : cfg.routing_mode = routing_mode_t.RMODE_ROUTER
      · simp [setup_device, hD, hr]
      · cases hT : cfg.DeviceType with
        | none =>
          by_cases ho : os.open_result < 0 <;> cases hI : cfg.Interface <;>
            simp [setup_device, hD, hr, hT, ho, hI]
        | some t =>
          by_cases ht : strcasecmp t ['t', 'a', 'p'] = 0 <;>
            by_cases ho : os.open_result < 0 <;> cases hI : cfg.Interface <;>
            simp [setup_device, hD, hr, hT, ht, ho, hI]
    | some d =>
      cases hT : cfg.DeviceType with
      | none =>
        by_cases h1 : (strstr d ['t', 'a', 'p']).isSome = true
              ∨ cfg.routing_mode ≠ routing_mode_t.RMODE_ROUTER
        · by_cases ho : os.open_result < 0 <;> cases hI : cfg.Interface <;>
            simp [setup_device, hD, hT, h1, ho, hI]
        · by_cases hs : cfg.routing_mode = routing_mode_t.RMODE_SWITCH ∧
              ¬ s.device_type = DEVICE_TYPE_TAP <;>
            by_cases ho : os.open_result < 0 <;> cases hI : cfg.Interface <;>
            simp [setup_device, hD, hT, h1, hs, ho, hI]
      | some t =>
        by_cases ht : strcasecmp t ['t', 'a', 'p'] = 0 <;>
          by_cases ho : os.open_result < 0 <;> cases hI : cfg.Interface <;>
          simp [setup_device, hD, hT, ht, ho, hI]
  · unfold read_packet
    split <;> (try split) <;> rfl
  · unfold write_packet
    split <;> (try split) <;> rfl

/-- C6: starting from `device_total_in = device_total_out = 0`, after any
finite sequence of `read_packet` and `write_packet` calls `device_total_in` is
the sum modulo `2^64` of `packet->len` over the reads that returned true and
`device_total_out` the same sum over the writes that returned true; a call
that returns false changes neither counter, `read_packet` never changes
`device_total_out` and `write_packet` never changes `device_total_in`. -/
theorem byte_counters_exact (s : DevState) (calls : List DevCall)
    (hin : s.device_total_in = 0) (hout : s.device_total_out = 0) :
    (runCalls s calls).1.device_total_in = sumLen true (runCalls s calls).2 % U64
      ∧ (runCalls s calls).1.device_total_out = sumLen false (runCalls s calls).2 % U64
      ∧ (∀ (t : DevState) (c : DevCall), (runCall t c).2.ok = false →
          (runCall t c).1.device_total_in = t.device_total_in
            ∧ (runCall t c).1.device_total_out = t.device_total_out)
      ∧ (∀ (t : DevState) (lenin : Int) (bytes : List Nat) (p : vpn_packet_t),
          (read_packet lenin bytes t p).2.1.device_total_out = t.device_total_out)
      ∧ (∀ (t : DevState) (written : Int) (p : vpn_packet_t),
          (write_packet written t p).2.1.device_total_in = t.device_total_in) := by
  have hU : (0 : Int) < U64 := by unfold U64; norm_num
  have hr := runCalls_range calls s (by rw [hin]; exact ⟨le_refl 0, hU⟩)
    (by rw [hout]; exact ⟨le_refl 0, hU⟩)
  have ht := runCalls_totals calls s
  rw [hin, Int.zero_add, Int.emod_eq_of_lt hr.1.1 hr.1.2] at ht
  rw [hout, Int.zero_add, Int.emod_eq_of_lt hr.2.1 hr.2.2] at ht
  refine ⟨ht.1, ht.2, ?_, ?_, ?_⟩
  · intro t c hc
    cases c with
    | read lenin bytes p =>
      simp only [runCall, read_packet] at hc ⊢
      split
      · split
        · exact ⟨rfl, rfl⟩
        · rename_i h1 h2
          simp [h1, h2] at hc
      · exact ⟨rfl, rfl⟩
    | write written p =>
      simp only [runCall, write_packet] at hc ⊢
      split
      · split
        · exact ⟨rfl, rfl⟩
        · rename_i h1 h2
          simp [h1, h2] at hc
      · exact ⟨rfl, rfl⟩
  · intro t lenin bytes p
    unfold read_packet
    split <;> (try split) <;> rfl
  · intro t written p
    unfold write_packet
    split <;> (try split) <;> rfl

/-- Witness of C6: a read of 60 bytes, a failed read, a write of 42 bytes and
a failed write on a fresh device state. -/
theorem byte_counters_exact_witness :
    (runCalls (DevState.fresh false)
        [DevCall.read 60 [] { len := 0, data := [] },
         DevCall.read (-1) [] { len := 7, data := [] },
         DevCall.write 42 { len := 42, data := [] },
         DevCall.write (-1) { len := 9, data := [] }]).1.device_total_in = 60
      ∧ (runCalls (DevState.fresh false)
        [DevCall.read 60 [] { len := 0, data := [] },
         DevCall.read (-1) [] { len := 7, data := [] },
         DevCall.write 42 { len := 42, data := [] },
         DevCall.write (-1) { len := 9, data := [] }]).1.device_total_out = 42 :=
  have h := byte_counters_exact (DevState.fresh false)
    [DevCall.read 60 [] { len := 0, data := [] },
     DevCall.read (-1) [] { len := 7, data := [] },
     DevCall.write 42 { len := 42, data := [] },
     DevCall.write (-1) { len := 9, data := [] }] rfl rfl
  ⟨h.1.trans (by decide), h.2.1.trans (by decide)⟩

/-- C7: with the device type set to tap and an OS `read` of at most `MTU`
bytes, `read_packet` returns true exactly when the count read is positive, and
then `packet->len` is that count and lies between 1 and `MTU`; when the OS
read returns 0 or a negative value, it returns false and leaves `packet->len`
unchanged. -/
theorem read_packet_frame_or_fail (MTU lenin : Int) (bytes : List Nat) (s : DevState)
    (packet : vpn_packet_t) (htap : s.device_type = DEVICE_TYPE_TAP) (hmtu : lenin ≤ MTU) :
    ((read_packet lenin bytes s packet).1 = true ↔ 0 < lenin)
      ∧ (0 < lenin →
          (read_packet lenin bytes s packet).2.2.len = lenin
            ∧ 1 ≤ (read_packet lenin bytes s packet).2.2.len
            ∧ (read_packet lenin bytes s packet).2.2.len ≤ MTU)
      ∧ (lenin ≤ 0 →
          (read_packet lenin bytes s packet).1 = false
            ∧ (read_packet lenin bytes s packet).2.2.len = packet.len) := by
  by_cases h : lenin ≤ 0
  · have hr : read_packet lenin bytes s packet = (false, s, packet) := by
      simp [read_packet, htap, h]
    rw [hr]
    refine ⟨?_, ?_, ?_⟩
    · constructor
      · intro hf
        cases hf
      · intro h0
        omega
    · intro h0
      omega
    · intro _
      exact ⟨rfl, rfl⟩
  · have hr : read_packet lenin bytes s packet
        = (true, { s with device_total_in := (s.device_total_in + lenin) % U64 },
            { len := lenin, data := bytes ++ packet.data.drop bytes.length }) := by
      simp [read_packet, htap, h]
    rw [hr]
    refine ⟨?_, ?_, ?_⟩
    · constructor
      · intro _
        omega
      · intro _
        rfl
    · intro h0
      exact ⟨rfl, by show 1 ≤ lenin; omega, hmtu⟩
    · intro h0
      omega

/-- Witness of C7: a frame of 60 bytes read with `MTU = 1518`. -/
theorem read_packet_frame_or_fail_witness :
    (read_packet 60 [] (DevState.fresh false) { len := 0, data := [] }).1 = true
      ∧ (read_packet 60 [] (DevState.fresh false) { len := 0, data := [] }).2.2.len = 60 :=
  have h := read_packet_frame_or_fail 1518 60 [] (DevState.fresh false)
    { len := 0, data := [] } rfl (by decide)
  ⟨h.1.mpr (by decide), (h.2.1 (by decide)).1⟩

/-- C8: with the device type set to tap, `write_packet` returns false exactly
when the OS `write` returns a negative value; for every non-negative result,
a short write included, it returns true and adds the full `packet->len` to
`device_total_out` (modulo `2^64`); the packet is never modified. -/
theorem write_packet_fails_iff_os_error (written : Int) (s : DevState)
    (packet : vpn_packet_t) (htap : s.device_type = DEVICE_TYPE_TAP) :
    ((write_packet written s packet).1 = false ↔ written < 0)
      ∧ (0 ≤ written →
          (write_packet written s packet).1 = true
            ∧ (write_packet written s packet).2.1.device_total_out
                = (s.device_total_out + packet.len) % U64)
      ∧ (write_packet written s packet).2.2 = packet := by
  by_cases h : written < 0
  · have hr : write_packet written s packet = (false, s, packet) := by
      simp [write_packet, htap, h]
    rw [hr]
    refine ⟨?_, ?_, rfl⟩
    · constructor
      · intro _
        exact h
      · intro _
        rfl
    · intro h0
      omega
  · have hr : write_packet written s packet
        = (true, { s with device_total_out := (s.device_total_out + packet.len) % U64 },
            packet) := by
      simp [write_packet, htap, h]
    rw [hr]
    refine ⟨?_, ?_, rfl⟩
    · constructor
      · intro hf
        cases hf
      · intro h0
        exact absurd h0 h
    · intro _
      exact ⟨rfl, rfl⟩

/-- Witness of C8: a short write of 10 bytes out of 42 still counts 42. -/
theorem write_packet_fails_iff_os_error_witness :
    (write_packet 10 (DevState.fresh false) { len := 42, data := [] }).1 = true
      ∧ (write_packet 10 (DevState.fresh false)
          { len := 42, data := [] }).2.1.device_total_out = 42 :=
  have h := write_packet_fails_iff_os_error 10 (DevState.fresh false)
    { len := 42, data := [] } rfl
  ⟨(h.2.1 (by decide)).1, (h.2.1 (by decide)).2.trans (by decide)⟩

/-- C9, as stated, fails: in router mode with `Device` set to "/dev/tap0" and
an `open` that succeeds, `setup_device` returns true. -/
theorem router_mode_with_device_accepted :
    ¬ ∀ (cfg : Config) (os : SetupOS) (s : DevState),
        cfg.routing_mode = routing_mode_t.RMODE_ROUTER → (setup_device cfg os s).1 = false := by
  intro h
  have h1 := h
    { Device := some "/dev/tap0".toList, DeviceType := none, Interface := none,
      routing_mode := routing_mode_t.RMODE_ROUTER }
    { open_result := 3, realname := none } (DevState.fresh false) rfl
  revert h1
  decide

/-- C9, amended: in router mode with no `Device` configured, `setup_device`
returns false, and it does so before it changes anything. -/
theorem router_mode_default_device_rejected (cfg : Config) (os : SetupOS) (s : DevState)
    (hr : cfg.routing_mode = routing_mode_t.RMODE_ROUTER) (hD : cfg.Device = none) :
    setup_device cfg os s = (false, s) := by
  simp [setup_device, hD, hr]

/-- Witness of the amended C9: router mode with nothing else configured. -/
theorem router_mode_default_device_rejected_witness :
    setup_device
        { Device := none, DeviceType := none, Interface := none,
          routing_mode := routing_mode_t.RMODE_ROUTER }
        { open_result := 3, realname := none } (DevState.fresh false)
      = (false, DevState.fresh false) :=
  router_mode_default_device_rejected
    { Device := none, DeviceType := none, Interface := none,
      routing_mode := routing_mode_t.RMODE_ROUTER }
    { open_result := 3, realname := none } (DevState.fresh false) rfl rfl

/-- C10: when `Interface` is not configured and `setup_device` succeeds,
`device` is the configured `Device` or "/dev/tap0", and `iface` is the final
path component of the real device name (the OS-reported name, or `device` when
there is none): the part after the last `'/'`, or the whole name when it has
no `'/'`; so `iface` is a suffix of the name without any `'/'`.  With neither
`Device` nor an OS-reported name, `device` is "/dev/tap0" and `iface` is
"tap0". -/
theorem setup_device_iface_basename (cfg : Config) (os : SetupOS) (s : DevState)
    (hI : cfg.Interface = none) (hok : (setup_device cfg os s).1 = true) :
    ∃ device name iface : CString,
      (setup_device cfg os s).2.device = some device
        ∧ device = cfg.Device.getD DEFAULT_TAP_DEVICE
        ∧ name = os.realname.getD device
        ∧ (setup_device cfg os s).2.iface = some iface
        ∧ ('/' ∈ name → ∃ pre, name = pre ++ '/' :: iface)
        ∧ ('/' ∉ name → iface = name)
        ∧ '/' ∉ iface
        ∧ iface <:+ name
        ∧ (cfg.Device = none → os.realname = none →
            device = "/dev/tap0".toList ∧ iface = "tap0".toList) := by
  have key : (setup_device cfg os s).2.device = some (cfg.Device.getD DEFAULT_TAP_DEVICE)
      ∧ (setup_device cfg os s).2.iface
          = some (basename (os.realname.getD (cfg.Device.getD DEFAULT_TAP_DEVICE))) := by
    cases hD : cfg.Device with
    | none =>
      by_cases hr : cfg.routing_mode = routing_mode_t.RMODE_ROUTER
      · simp [setup_device, hD, hr] at hok
      · cases hT : cfg.DeviceType with
        | none =>
          by_cases ho : os.open_result < 0
          · simp [setup_device, hD, hr, hT, ho, hI] at hok
          · cases hN : os.realname <;> simp [setup_device, hD, hr, hT, ho, hI, hN]
        | some t =>
          by_cases ht : strcasecmp t ['t', 'a', 'p'] = 0
          · by_cases ho : os.open_result < 0
            · simp [setup_device, hD, hr, hT, ht, ho, hI] at hok
            · cases hN : os.realname <;> simp [setup_device, hD, hr, hT, ht, ho, hI, hN]
          · simp [setup_device, hD, hr, hT, ht] at hok
    | some d =>
      cases hT : cfg.DeviceType with
      | none =>
        by_cases h1 : (strstr d ['t', 'a', 'p']).isSome = true
              ∨ cfg.routing_mode ≠ routing_mode_t.RMODE_ROUTER
        · by_cases ho : os.open_result < 0
          · simp [setup_device, hD, hT, h1, ho, hI] at hok
          · cases hN : os.realname <;> simp [setup_device, hD, hT, h1, ho, hI, hN]
        · by_cases hs : cfg.routing_mode = routing_mode_t.RMODE_SWITCH ∧
              ¬ s.device_type = DEVICE_TYPE_TAP
          · exact absurd (Or.inr (by rw [hs.1]; decide)) h1
          · by_cases ho : os.open_result < 0
            · simp [setup_device, hD, hT, h1, hs, ho, hI] at hok
            · cases hN : os.realname <;> simp [setup_device, hD, hT, h1, hs, ho, hI, hN]
      | some t =>
        by_cases ht : strcasecmp t ['t', 'a', 'p'] = 0
        · by_cases ho : os.open_result < 0
          · simp [setup_device, hD, hT, ht, ho, hI] at hok
          · cases hN : os.realname <;> simp [setup_device, hD, hT, ht, ho, hI, hN]
        · simp [setup_device, hD, hT, ht] at hok
  obtain ⟨b1, b2, b3, b4⟩ :=
    basename_spec (os.realname.getD (cfg.Device.getD DEFAULT_TAP_DEVICE))
  refine ⟨cfg.Device.getD DEFAULT_TAP_DEVICE,
    os.realname.getD (cfg.Device.getD DEFAULT_TAP_DEVICE),
    basename (os.realname.getD (cfg.Device.getD DEFAULT_TAP_DEVICE)),
    key.1, rfl, rfl, key.2, b1, b2, b3, b4, ?_⟩
  intro hD hN
  rw [hD, hN]
  exact ⟨rfl, by decide⟩

/-- Witness of C10: nothing configured in switch mode, no OS-reported name. -/
theorem setup_device_iface_basename_witness :
    (setup_device
        { Device := none, DeviceType := none, Interface := none,
          routing_mode := routing_mode_t.RMODE_SWITCH }
        { open_result := 3, realname := none } (DevState.fresh false)).1 = true
      ∧ ∃ device name iface : CString,
        (setup_device
          { Device := none, DeviceType := none, Interface := none,
            routing_mode := routing_mode_t.RMODE_SWITCH }
          { open_result := 3, realname := none } (DevState.fresh false)).2.iface = some iface
        ∧ name = device ∧ device = "/dev/tap0".toList ∧ iface = "tap0".toList := by
  refine ⟨by decide, ?_⟩
  obtain ⟨device, name, iface, _, _, h3, h4, _, _, _, _, h9⟩ :=
    setup_device_iface_basename
      { Device := none, DeviceType := none, Interface := none,
        routing_mode := routing_mode_t.RMODE_SWITCH }
      { open_result := 3, realname := none } (DevState.fresh false) rfl (by decide)
  exact ⟨device, name, iface, h4, h3, (h9 rfl rfl).1, (h9 rfl rfl).2⟩

/-! ## Graph engine: lookups in the Node Registry -/

theorem findNode_map (f : Node → Node) (hf : ∀ n, (f n).id = n.id) (ns : List Node)
    (x : NodeId) : findNode (ns.map f) x = (findNode ns x).map f := by
  induction ns with
  | nil => rfl
  | cons n ns ih =>
    unfold findNode at ih ⊢
    simp only [List.map_cons, List.find?_cons, hf]
    cases h : (n.id == x)
    · simpa using ih
    · simp

theorem findNode_id (ns : List Node) (x : NodeId) (n : Node) (h : findNode ns x = some n) :
    n.id = x := by
  have := List.find?_some h
  simpa using this

theorem findNode_none_iff (ns : List Node) (x : NodeId) :
    findNode ns x = none ↔ x ∉ ns.map Node.id := by
  unfold findNode
  rw [List.find?_eq_none]
  simp only [List.mem_map, not_exists, not_and, beq_iff_eq]

theorem findNode_some_of_mem (ns : List Node) (x : NodeId) (h : x ∈ ns.map Node.id) :
    ∃ n, findNode ns x = some n := by
  cases hf : findNode ns x with
  | none => exact absurd h ((findNode_none_iff ns x).mp hf)
  | some n => exact ⟨n, rfl⟩

theorem map_id_map (f : Node → Node) (hf : ∀ n, (f n).id = n.id) (ns : List Node) :
    (ns.map f).map Node.id = ns.map Node.id := by
  rw [List.map_map]
  apply List.map_congr_left
  intro n _
  exact hf n

theorem isReachable_iff (ns : List Node) (x : NodeId) :
    isReachable ns x = true ↔ ∃ n, findNode ns x = some n ∧ n.status = Status.Reachable := by
  unfold isReachable
  cases findNode ns x with
  | none => simp
  | some n => simp

theorem isPending_iff (ns : List Node) (x : NodeId) :
    isPending ns x = true ↔ ∃ n, findNode ns x = some n ∧ n.status ≠ Status.Reachable := by
  unfold isPending
  cases findNode ns x with
  | none => simp
  | some n => simp

theorem isReachable_mem (ns : List Node) (x : NodeId) (h : isReachable ns x = true) :
    x ∈ ns.map Node.id := by
  obtain ⟨n, hn, _⟩ := (isReachable_iff ns x).mp h
  by_contra hx
  rw [(findNode_none_iff ns x).mpr hx] at hn
  cases hn

theorem isPending_of_not_reachable (ns : List Node) (x : NodeId) (hx : x ∈ ns.map Node.id)
    (h : isReachable ns x = false) : isPending ns x = true := by
  obtain ⟨n, hn⟩ := findNode_some_of_mem ns x hx
  unfold isReachable at h
  unfold isPending
  rw [hn] at h ⊢
  simpa using h


/-! ## Graph engine: marking a node Reachable -/

theorem markReachable_ids (ns : List Node) (c : NodeId) (d : Option Nat) (v : Option NodeId)
    (e : Edge) : (markReachable ns c d v e).map Node.id = ns.map Node.id := by
  unfold markReachable
  apply map_id_map
  intro n
  split <;> rfl

theorem findNode_markReachable (ns : List Node) (c : NodeId) (d : Option Nat)
    (v : Option NodeId) (e : Edge) (x : NodeId) :
    findNode (markReachable ns c d v e) x
      = (findNode ns x).map (fun n =>
          if n.id = c then
            { n with status := Status.Reachable, distance := d, via := v,
                     mst_edge := some (e.a, e.b) }
          else n) := by
  unfold markReachable
  apply findNode_map
  intro n
  split <;> rfl

theorem isReachable_markReachable (ns : List Node) (c : NodeId) (d : Option Nat)
    (v : Option NodeId) (e : Edge) (x : NodeId) :
    isReachable (markReachable ns c d v e) x = true
      ↔ (x = c ∧ x ∈ ns.map Node.id) ∨ isReachable ns x = true := by
  unfold isReachable
  rw [findNode_markReachable]
  cases hf : findNode ns x with
  | none =>
    have := (findNode_none_iff ns x).mp hf
    simp [this]
  | some n =>
    have hid := findNode_id ns x n hf
    have hmem : x ∈ ns.map Node.id := by
      by_contra hx
      rw [(findNode_none_iff ns x).mpr hx] at hf
      cases hf
    by_cases hc : x = c
    · subst hc
      simp [hid, hmem]
    · have : ¬ n.id = c := by rw [hid]; exact hc
      simp [this, hc]

theorem countP_map_le {α : Type} (p : α → Bool) (f : α → α)
    (hpf : ∀ a, p (f a) = true → p a = true) (l : List α) :
    (l.map f).countP p ≤ l.countP p := by
  induction l with
  | nil => exact Nat.le_refl _
  | cons a l ih =>
    rw [List.map_cons, List.countP_cons, List.countP_cons]
    have h := hpf a
    cases h1 : p (f a) <;> cases h2 : p a
    · simp only [↓reduceIte, Bool.false_eq_true]
      omega
    · simp only [↓reduceIte, Bool.false_eq_true]
      omega
    · rw [h1, h2] at h
      exact absurd (h rfl) (by decide)
    · simp only [↓reduceIte]
      omega

theorem countP_map_lt {α : Type} (p : α → Bool) (f : α → α)
    (hpf : ∀ a, p (f a) = true → p a = true) (l : List α) (m : α) (hm : m ∈ l)
    (h1 : p m = true) (h2 : p (f m) = false) :
    (l.map f).countP p < l.countP p := by
  induction l with
  | nil => cases hm
  | cons a l ih =>
    rw [List.map_cons, List.countP_cons, List.countP_cons]
    rcases List.mem_cons.mp hm with h | h
    · subst h
      have := countP_map_le p f hpf l
      rw [h1, h2]
      simp only [↓reduceIte, Bool.false_eq_true]
      omega
    · have hlt := ih h
      have h := hpf a
      cases h3 : p (f a) <;> cases h4 : p a
      · simp only [↓reduceIte, Bool.false_eq_true]
        omega
      · simp only [↓reduceIte, Bool.false_eq_true]
        omega
      · rw [h3, h4] at h
        exact absurd (h rfl) (by decide)
      · simp only [↓reduceIte]
        omega

theorem pendingCount_markReachable (ns : List Node) (c : NodeId) (d : Option Nat)
    (v : Option NodeId) (e : Edge) (h : isPending ns c = true) :
    pendingCount (markReachable ns c d v e) < pendingCount ns := by
  obtain ⟨m, hm, hst⟩ := (isPending_iff ns c).mp h
  have hid := findNode_id ns c m hm
  have hmem : m ∈ ns := by
    unfold findNode at hm
    exact List.mem_of_find?_eq_some hm
  unfold pendingCount markReachable
  apply countP_map_lt _ _ _ ns m hmem
  · simpa using hst
  · simp [hid]
  · intro a
    by_cases ha : a.id = c
    · simp [ha]
    · simp [ha]

theorem markReachable_reset (ns : List Node) (c : NodeId) (d : Option Nat)
    (v : Option NodeId) (e : Edge) (s : NodeId) :
    (markReachable ns c d v e).map (resetNode s) = ns.map (resetNode s) := by
  unfold markReachable
  rw [List.map_map]
  apply List.map_congr_left
  intro n _
  simp only [Function.comp]
  split
  · unfold resetNode
    rfl
  · rfl

/-! ## Graph engine: selection of the frontier edge and one growth round -/

theorem pickMin_mem (l : List Edge) (e : Edge) (h : pickMin l = some e) : e ∈ l := by
  induction l generalizing e with
  | nil => simp [pickMin] at h
  | cons a l ih =>
    unfold pickMin at h
    cases hp : pickMin l with
    | none =>
      rw [hp] at h
      simp only [Option.some.injEq] at h
      subst h
      exact List.mem_cons_self _ _
    | some m =>
      rw [hp] at h
      simp only at h
      split at h
      · simp only [Option.some.injEq] at h
        subst h
        exact List.mem_cons_of_mem _ (ih m hp)
      · simp only [Option.some.injEq] at h
        subst h
        exact List.mem_cons_self _ _

theorem pickMin_none (l : List Edge) (h : pickMin l = none) : l = [] := by
  cases l with
  | nil => rfl
  | cons a l =>
    unfold pickMin at h
    cases hp : pickMin l with
    | none =>
      rw [hp] at h
      cases h
    | some m =>
      rw [hp] at h
      simp only at h
      split at h <;> cases h

theorem growStep_some (g g1 : Graph) (h : growStep g = some g1) :
    ∃ (e : Edge) (p c : NodeId) (d : Option Nat) (v : Option NodeId),
      e ∈ g.edges ∧ ((e.a = p ∧ e.b = c) ∨ (e.a = c ∧ e.b = p))
        ∧ isReachable g.nodes p = true ∧ isPending g.nodes c = true
        ∧ g1 = { g with nodes := markReachable g.nodes c d v e } := by
  unfold growStep at h
  cases hp : pickMin (g.edges.filter (isFrontier g.nodes)) with
  | none =>
    rw [hp] at h
    cases h
  | some e =>
    rw [hp] at h
    simp only [Option.some.injEq] at h
    have hmem := pickMin_mem _ _ hp
    rw [List.mem_filter] at hmem
    obtain ⟨he, hfr⟩ := hmem
    by_cases hab : (isReachable g.nodes e.a && isPending g.nodes e.b) = true
    · simp only [hab, if_true] at h
      have hab2 := hab
      rw [Bool.and_eq_true] at hab2
      exact ⟨e, e.a, e.b, _, _, he, Or.inl ⟨rfl, rfl⟩, hab2.1, hab2.2, h.symm⟩
    · simp only [hab, if_false] at h
      unfold isFrontier at hfr
      rw [Bool.or_eq_true] at hfr
      rcases hfr with hfr | hfr
      · exact absurd hfr hab
      · rw [Bool.and_eq_true] at hfr
        exact ⟨e, e.b, e.a, _, _, he, Or.inr ⟨rfl, rfl⟩, hfr.1, hfr.2, h.symm⟩

theorem growStep_none (g : Graph) (h : growStep g = none) :
    ∀ e ∈ g.edges, isFrontier g.nodes e = false := by
  unfold growStep at h
  cases hp : pickMin (g.edges.filter (isFrontier g.nodes)) with
  | none =>
    have hnil := pickMin_none _ hp
    intro e he
    by_contra hfr
    have : e ∈ g.edges.filter (isFrontier g.nodes) := by
      rw [List.mem_filter]
      exact ⟨he, by simpa using hfr⟩
    rw [hnil] at this
    cases this
  | some e =>
    rw [hp] at h
    cases h

theorem growStep_frame (g g1 : Graph) (h : growStep g = some g1) :
    g1.self = g.self ∧ g1.edges = g.edges ∧ g1.graph_changed = g.graph_changed
      ∧ g1.nodes.map Node.id = g.nodes.map Node.id
      ∧ (∀ s, g1.nodes.map (resetNode s) = g.nodes.map (resetNode s))
      ∧ pendingCount g1.nodes < pendingCount g.nodes
      ∧ (∀ x, isReachable g.nodes x = true → isReachable g1.nodes x = true)
      ∧ (∀ x, isReachable g1.nodes x = true →
          isReachable g.nodes x = true
            ∨ ∃ p, isReachable g.nodes p = true ∧ Adjacent g.edges p x) := by
  obtain ⟨e, p, c, d, v, he, hpc, hp, hc, rfl⟩ := growStep_some g g1 h
  refine ⟨rfl, rfl, rfl, markReachable_ids _ _ _ _ _, fun s => markReachable_reset _ _ _ _ _ s,
    pendingCount_markReachable _ _ _ _ _ hc, ?_, ?_⟩
  · intro x hx
    exact (isReachable_markReachable _ _ _ _ _ _).mpr (Or.inr hx)
  · intro x hx
    rcases (isReachable_markReachable _ _ _ _ _ _).mp hx with ⟨hxc, _⟩ | hx1
    · right
      refine ⟨p, hp, e, he, ?_⟩
      rw [hxc]
      rcases hpc with ⟨h1, h2⟩ | ⟨h1, h2⟩
      · exact Or.inl ⟨h1, h2⟩
      · exact Or.inr ⟨h1, h2⟩
    · exact Or.inl hx1

/-! ## Graph engine: the growth loop -/

theorem grow_frame (fuel : Nat) (g : Graph) :
    (grow fuel g).self = g.self ∧ (grow fuel g).edges = g.edges
      ∧ (grow fuel g).graph_changed = g.graph_changed
      ∧ (grow fuel g).nodes.map Node.id = g.nodes.map Node.id
      ∧ (∀ s, (grow fuel g).nodes.map (resetNode s) = g.nodes.map (resetNode s))
      ∧ (∀ x, isReachable g.nodes x = true → isReachable (grow fuel g).nodes x = true) := by
  induction fuel generalizing g with
  | zero => exact ⟨rfl, rfl, rfl, rfl, fun _ => rfl, fun _ h => h⟩
  | succ k ih =>
    unfold grow
    cases hs : growStep g with
    | none => exact ⟨rfl, rfl, rfl, rfl, fun _ => rfl, fun _ h => h⟩
    | some g1 =>
      obtain ⟨a1, a2, a3, a4, a5, _, a7, _⟩ := growStep_frame g g1 hs
      obtain ⟨b1, b2, b3, b4, b5, b6⟩ := ih g1
      exact ⟨b1.trans a1, b2.trans a2, b3.trans a3, b4.trans a4,
        fun s => (b5 s).trans (a5 s), fun x hx => b6 x (a7 x hx)⟩

/-- Soundness of the growth: every node it marks Reachable is connected to
self, provided that holds at the start. -/
theorem grow_sound (fuel : Nat) (g : Graph)
    (hinv : ∀ x, isReachable g.nodes x = true → Connected g.edges g.self x) :
    ∀ x, isReachable (grow fuel g).nodes x = true → Connected g.edges g.self x := by
  induction fuel generalizing g with
  | zero => exact hinv
  | succ k ih =>
    unfold grow
    cases hs : growStep g with
    | none => exact hinv
    | some g1 =>
      obtain ⟨a1, a2, _, _, _, _, _, a8⟩ := growStep_frame g g1 hs
      have := ih g1 (by
        intro x hx
        rw [a1, a2]
        rcases a8 x hx with h1 | ⟨p, hp, hadj⟩
        · exact hinv x h1
        · exact Relation.ReflTransGen.tail (hinv p hp) hadj)
      rw [a1, a2] at this
      exact this

/-- Enough fuel: once the fuel covers the number of nodes that are not yet
Reachable, the growth stops only with an empty frontier. -/
theorem growStep_grow_eq_none (fuel : Nat) (g : Graph) (h : pendingCount g.nodes ≤ fuel) :
    growStep (grow fuel g) = none := by
  induction fuel generalizing g with
  | zero =>
    unfold grow
    cases hs : growStep g with
    | none => rfl
    | some g1 =>
      have := (growStep_frame g g1 hs).2.2.2.2.2.1
      omega
  | succ k ih =>
    unfold grow
    cases hs : growStep g with
    | none => exact hs
    | some g1 =>
      have := (growStep_frame g g1 hs).2.2.2.2.2.1
      exact ih g1 (by omega)

/-! ## Graph engine: start and end of a recomputation pass -/

theorem resetNode_id (s : NodeId) (n : Node) : (resetNode s n).id = n.id := by
  unfold resetNode
  split <;> rfl

theorem resetNode_idem (s : NodeId) (n : Node) :
    resetNode s (resetNode s n) = resetNode s n := by
  unfold resetNode
  by_cases h : n.id = s
  · simp [h]
  · simp [h]

theorem finalizeNode_id (n : Node) : (finalizeNode n).id = n.id := by
  unfold finalizeNode
  split <;> rfl

theorem resetNode_finalizeNode (s : NodeId) (n : Node) :
    resetNode s (finalizeNode n) = resetNode s n := by
  unfold finalizeNode
  split
  · unfold resetNode
    rfl
  · rfl

theorem isReachable_reset (ns : List Node) (s x : NodeId) :
    isReachable (ns.map (resetNode s)) x = true ↔ x = s ∧ x ∈ ns.map Node.id := by
  unfold isReachable
  rw [findNode_map _ (resetNode_id s)]
  cases hf : findNode ns x with
  | none =>
    have := (findNode_none_iff ns x).mp hf
    simp [this]
  | some n =>
    have hid := findNode_id ns x n hf
    have hmem : x ∈ ns.map Node.id := by
      by_contra hx
      rw [(findNode_none_iff ns x).mpr hx] at hf
      cases hf
    by_cases hc : x = s
    · subst hc
      simp [resetNode, hid, hmem]
    · have : ¬ n.id = s := by rw [hid]; exact hc
      simp [resetNode, this, hc]

theorem isReachable_finalize (ns : List Node) (x : NodeId) :
    isReachable (ns.map finalizeNode) x = isReachable ns x := by
  unfold isReachable
  rw [findNode_map _ finalizeNode_id]
  cases hf : findNode ns x with
  | none => rfl
  | some n =>
    simp only [Option.map_some']
    unfold finalizeNode
    split
    · rename_i h
      simp [h]
    · rfl

theorem statusOf_reachable_iff (g : Graph) (x : NodeId) :
    statusOf g x = some Status.Reachable ↔ isReachable g.nodes x = true := by
  unfold statusOf isReachable
  cases findNode g.nodes x with
  | none => simp
  | some n => simp

/-- Completeness of a finished growth: with an empty frontier and self
Reachable, every node connected to self is Reachable. -/
theorem closed_of_no_frontier (g : Graph)
    (hwf : ∀ e ∈ g.edges, e.a ∈ g.nodes.map Node.id ∧ e.b ∈ g.nodes.map Node.id)
    (hnf : ∀ e ∈ g.edges, isFrontier g.nodes e = false)
    (hself : isReachable g.nodes g.self = true) :
    ∀ x, Connected g.edges g.self x → isReachable g.nodes x = true := by
  intro x hx
  induction hx with
  | refl => exact hself
  | @tail b c _ hbc ih =>
    obtain ⟨e, he, hdir⟩ := hbc
    by_contra hc
    have hc1 : isReachable g.nodes c = false := by simpa using hc
    have hfr := hnf e he
    unfold isFrontier at hfr
    rw [Bool.or_eq_false_iff] at hfr
    rcases hdir with ⟨h1, h2⟩ | ⟨h1, h2⟩
    · have hp := isPending_of_not_reachable g.nodes c (h2 ▸ (hwf e he).2) hc1
      have := hfr.1
      rw [h1, h2, ih, hp] at this
      cases this
    · have hp := isPending_of_not_reachable g.nodes c (h1 ▸ (hwf e he).1) hc1
      have := hfr.2
      rw [h1, h2, ih, hp] at this
      cases this

/-- The recompute entry point on well-formed registries: a node is Reachable
afterwards exactly when it is connected to self. -/
theorem graph_reachable_iff (g : Graph) (hwf : WellFormed g) (x : NodeId) :
    statusOf (graph g) x = some Status.Reachable ↔ Connected g.edges g.self x := by
  have hg : graph g =
      { grow (g.nodes.map (resetNode g.self)).length
          { g with nodes := g.nodes.map (resetNode g.self), graph_changed := false } with
        nodes := (grow (g.nodes.map (resetNode g.self)).length
          { g with nodes := g.nodes.map (resetNode g.self),
                   graph_changed := false }).nodes.map finalizeNode } := rfl
  rw [statusOf_reachable_iff, hg]
  simp only
  rw [isReachable_finalize]
  generalize hg0 : ({ g with nodes := g.nodes.map (resetNode g.self),
                             graph_changed := false } : Graph) = g0
  have hself0 : g0.self = g.self := by rw [← hg0]
  have hedges0 : g0.edges = g.edges := by rw [← hg0]
  have hnodes0 : g0.nodes = g.nodes.map (resetNode g.self) := by rw [← hg0]
  rw [← hnodes0]
  obtain ⟨f1, f2, _, f4, _, f6⟩ := grow_frame g0.nodes.length g0
  have hids0 : g0.nodes.map Node.id = g.nodes.map Node.id := by
    rw [hnodes0]
    exact map_id_map _ (resetNode_id g.self) _
  constructor
  · intro hx
    have := grow_sound g0.nodes.length g0 (by
      intro y hy
      rw [hnodes0] at hy
      have := ((isReachable_reset g.nodes g.self y).mp hy).1
      rw [this, hself0]
      exact Relation.ReflTransGen.refl) x hx
    rw [hself0, hedges0] at this
    exact this
  · intro hx
    have hstop := growStep_grow_eq_none g0.nodes.length g0 (by
      unfold pendingCount
      exact List.countP_le_length _)
    have hnf := growStep_none _ hstop
    apply closed_of_no_frontier (grow g0.nodes.length g0)
    · intro e he
      rw [f2, hedges0] at he
      rw [f4, hids0]
      exact hwf.2 e he
    · exact hnf
    · apply f6
      rw [f1, hself0, hnodes0]
      exact (isReachable_reset g.nodes g.self g.self).mpr ⟨rfl, hwf.1⟩
    · rw [f1, f2, hself0, hedges0]
      exact hx

/-! ## Topology Replicator: well-formedness of the registries -/

theorem mem_insertKnown_self (ns : List Node) (x : NodeId) :
    x ∈ (insertKnown ns x).map Node.id := by
  unfold insertKnown
  cases hf : findNode ns x with
  | none => simp
  | some n =>
    simp only
    by_contra hx
    rw [(findNode_none_iff ns x).mpr hx] at hf
    cases hf

theorem mem_insertKnown_of_mem (ns : List Node) (x y : NodeId) (h : y ∈ ns.map Node.id) :
    y ∈ (insertKnown ns x).map Node.id := by
  unfold insertKnown
  cases hf : findNode ns x with
  | none =>
    simp only [List.map_append, List.mem_append]
    exact Or.inl h
  | some n => exact h

theorem wellFormed_init (self : NodeId) (dirty : Bool) : WellFormed (Graph.init self dirty) := by
  unfold WellFormed Graph.init
  simp

theorem wellFormed_add_edge (g : Graph) (a b : NodeId) (w : Nat) (o : Origin)
    (h : WellFormed g) : WellFormed (add_edge g a b w o) := by
  unfold add_edge
  by_cases hab : a = b
  · simp only [hab, if_true]
    exact h
  · simp only [hab, if_false]
    have hmono : ∀ y, y ∈ g.nodes.map Node.id →
        y ∈ (insertKnown (insertKnown g.nodes a) b).map Node.id :=
      fun y hy => mem_insertKnown_of_mem _ _ _ (mem_insertKnown_of_mem _ _ _ hy)
    have ha : a ∈ (insertKnown (insertKnown g.nodes a) b).map Node.id :=
      mem_insertKnown_of_mem _ _ _ (mem_insertKnown_self _ _)
    have hb : b ∈ (insertKnown (insertKnown g.nodes a) b).map Node.id :=
      mem_insertKnown_self _ _
    refine ⟨hmono _ h.1, ?_⟩
    intro e he
    simp only at he
    split at he
    · rw [List.mem_map] at he
      obtain ⟨e0, he0, hee⟩ := he
      have := h.2 e0 he0
      split at hee
      · subst hee
        exact ⟨hmono _ this.1, hmono _ this.2⟩
      · subst hee
        exact ⟨hmono _ this.1, hmono _ this.2⟩
    · rw [List.mem_append] at he
      rcases he with he | he
      · have := h.2 e he
        exact ⟨hmono _ this.1, hmono _ this.2⟩
      · simp only [List.mem_singleton] at he
        subst he
        exact ⟨ha, hb⟩

theorem wellFormed_remove_edge (g : Graph) (a b : NodeId) (h : WellFormed g) :
    WellFormed (remove_edge g a b) := by
  unfold remove_edge
  refine ⟨h.1, ?_⟩
  intro e he
  simp only at he
  exact h.2 e (List.mem_of_mem_filter he)

theorem applyOps_self (ops : List Op) (g : Graph) : (applyOps g ops).self = g.self := by
  unfold applyOps
  induction ops generalizing g with
  | nil => rfl
  | cons o os ih =>
    rw [List.foldl_cons, ih]
    cases o with
    | add a b w or =>
      simp only [applyOp, add_edge]
      split <;> rfl
    | remove a b => rfl

theorem wellFormed_applyOps (ops : List Op) (g : Graph) (h : WellFormed g) :
    WellFormed (applyOps g ops) := by
  unfold applyOps
  induction ops generalizing g with
  | nil => exact h
  | cons o os ih =>
    rw [List.foldl_cons]
    apply ih
    cases o with
    | add a b w or => exact wellFormed_add_edge g a b w or h
    | remove a b => exact wellFormed_remove_edge g a b h

/-- The result of `graph()` depends only on self, the Edge Registry and what
the start of a pass keeps of the Node Registry. -/
theorem graph_congr (g h : Graph) (h1 : h.self = g.self) (h2 : h.edges = g.edges)
    (h3 : h.nodes.map (resetNode g.self) = g.nodes.map (resetNode g.self)) :
    graph h = graph g := by
  unfold graph
  simp only [h1, h2, h3]

theorem graph_frame (g : Graph) :
    (graph g).self = g.self ∧ (graph g).edges = g.edges
      ∧ (graph g).graph_changed = false
      ∧ (graph g).nodes.map (resetNode g.self) = g.nodes.map (resetNode g.self) := by
  obtain ⟨f1, f2, f3, _, f5, _⟩ :=
    grow_frame (g.nodes.map (resetNode g.self)).length
      { g with nodes := g.nodes.map (resetNode g.self), graph_changed := false }
  refine ⟨f1, f2, f3, ?_⟩
  show ((grow (g.nodes.map (resetNode g.self)).length
      { g with nodes := g.nodes.map (resetNode g.self),
               graph_changed := false }).nodes.map finalizeNode).map (resetNode g.self)
    = g.nodes.map (resetNode g.self)
  rw [List.map_map]
  have : (resetNode g.self ∘ finalizeNode) = resetNode g.self := by
    funext n
    exact resetNode_finalizeNode g.self n
  rw [this, f5 g.self]
  simp only
  rw [List.map_map]
  apply List.map_congr_left
  intro n _
  exact resetNode_idem g.self n

/-! ## Graph engine: the claims -/

/-- C2: for every sequence of `add_edge`/`remove_edge` operations applied to a
graph whose only initial node is self, after the recompute entry point
`graph()` a node is Reachable if and only if it lies in the connected
component of self in the undirected graph formed by all the edges in the Edge
Registry (which `graph()` leaves as the operations made it). -/
theorem reachable_iff_connected (self : NodeId) (dirty : Bool) (ops : List Op) (x : NodeId) :
    (statusOf (graph (applyOps (Graph.init self dirty) ops)) x = some Status.Reachable
        ↔ Connected (graph (applyOps (Graph.init self dirty) ops)).edges self x)
      ∧ (graph (applyOps (Graph.init self dirty) ops)).edges
          = (applyOps (Graph.init self dirty) ops).edges := by
  have hwf := wellFormed_applyOps ops _ (wellFormed_init self dirty)
  have hself : (applyOps (Graph.init self dirty) ops).self = self := applyOps_self ops _
  have h := graph_reachable_iff _ hwf x
  rw [hself] at h
  rw [(graph_frame _).2.1]
  exact ⟨h, rfl⟩

/-- C3: the recompute entry point `graph()` clears the dirty flag and is
idempotent: after one run `graph_changed` is false, and a second run with no
mutation in between returns exactly the same state (the same status, via,
distance and mst_edge for every node) with `graph_changed` false again. -/
theorem graph_idempotent (g : Graph) :
    (graph g).graph_changed = false
      ∧ graph (graph g) = graph g
      ∧ (graph (graph g)).graph_changed = false := by
  obtain ⟨f1, f2, f3, f4⟩ := graph_frame g
  have h := graph_congr g (graph g) f1 f2 f4
  refine ⟨f3, h, ?_⟩
  rw [h]
  exact f3

/-! ## Graph engine: the scenarios of the specification -/

/-- Scenario A: edges (1,2) and (2,3) of weight 1 with self = 1: node 3 is
Reachable with distance 2 and via 2. -/
theorem scenario_A :
    (findNode (graph (applyOps (Graph.init 1 false)
        [Op.add 1 2 1 Origin.Local, Op.add 2 3 1 Origin.Local])).nodes 3).map
      (fun n => (n.status, n.distance, n.via))
      = some (Status.Reachable, some 2, some 2) := by
  decide

/-- Scenario B: after the removal of edge (2,3) node 3 is Unreachable. -/
theorem scenario_B :
    statusOf (graph (applyOps (Graph.init 1 false)
        [Op.add 1 2 1 Origin.Local, Op.add 2 3 1 Origin.Local, Op.remove 2 3])) 3
      = some Status.Unreachable := by
  decide

/-- Scenario C: with two equal-weight paths to node 4, through 2 and through
3, the tree edge of node 4 is the one from the lower-numbered node 2,
whatever the order of insertion. -/
theorem scenario_C :
    (findNode (graph (applyOps (Graph.init 1 false)
        [Op.add 3 4 1 Origin.Local, Op.add 1 3 1 Origin.Local,
         Op.add 2 4 1 Origin.Local, Op.add 1 2 1 Origin.Local])).nodes 4).map
      (fun n => (n.status, n.distance, n.mst_edge))
      = some (Status.Reachable, some 2, some (2, 4)) := by
  decide

end Tinc
